import Mathlib

set_option maxRecDepth 40000

/-!
Verification development for the `dns_proxy` component of the
`esphome-dns-rewrite-proxy` repository.

The repository's only source file, `components/dns_proxy/__init__.py`, is the
ESPHome configuration-binding layer: a `CONFIG_SCHEMA` (a `records` list of
`{domain: string, ip: string}` dicts, both fields run through `cv.string`) and
a `to_code` coroutine that registers the component and emits one
`add_record(domain, ip)` call per configured record.  That layer is embedded
here directly from the source.

The responder core (record table, packet codec, query resolver, response
builder, network listener) has no implementation in the repository; the
specification defines it from the domain's well-known requirements.  Those
parts are modelled from the specification text, and each such definition says
so in its doc comment.
-/

namespace DnsProxy

/-! ## Configuration value model (the ESPHome/voluptuous layer)

A configuration value as seen by ESPHome's config validation: a scalar, a
list, or a dict.  This is the input type of the `CONFIG_SCHEMA` validators in
`components/dns_proxy/__init__.py`.
-/

/-- A YAML/ESPHome configuration value. -/
inductive CV where
  | str (s : String)
  | num (n : Int)
  | boolean (b : Bool)
  | vlist (l : List CV)
  | vdict (d : List (String × CV))

/-- Errors raised by configuration validation and by the core's `load`.
`invalidString`, `missingKey`, `extraKey`, `notDict` model voluptuous
`Invalid` errors from the schema layer; `emptyDomain` and `badAddress` model
the spec's `ConfigError` cases for the core's `load`. -/
inductive ConfigError where
  | invalidString
  | missingKey
  | extraKey
  | notDict
  | emptyDomain
  | badAddress
deriving DecidableEq

/-- ESPHome's `cv.string` validator: strings pass through, scalars are
coerced to their string form, and booleans, lists and dicts are rejected. -/
def cvString : CV → Except ConfigError String
  | .str s => .ok s
  | .num n => .ok (toString n)
  | .boolean _ => .error .invalidString
  | .vlist _ => .error .invalidString
  | .vdict _ => .error .invalidString

/-- Look a key up in a configuration dict. -/
def dictGet (d : List (String × CV)) (k : String) : Option CV :=
  (d.find? (fun kv => kv.1 == k)).map (fun kv => kv.2)

/-- The per-record schema from `CONFIG_SCHEMA`
(`cv.Schema({cv.Required(CONF_DOMAIN): cv.string, cv.Required(CONF_IP):
cv.string})`): the value must be a dict, must not carry unknown keys, must
contain both `domain` and `ip`, and both values must pass `cv.string`. -/
def recordSchema (v : CV) : Except ConfigError (String × String) :=
  match v with
  | .vdict d =>
    if d.all (fun kv => kv.1 == "domain" || kv.1 == "ip") then
      match dictGet d "domain", dictGet d "ip" with
      | some vd, some vi =>
        match cvString vd, cvString vi with
        | .ok sd, .ok si => .ok (sd, si)
        | .error e, _ => .error e
        | _, .error e => .error e
      | _, _ => .error .missingKey
    else .error .extraKey
  | _ => .error .notDict

/-- The `records` option of `CONFIG_SCHEMA`:
`cv.ensure_list(cv.Schema({...}))` — a list validates each element against
the record schema, a single non-list value is wrapped into a one-element
list. -/
def validateRecords (v : CV) : Except ConfigError (List (String × String)) :=
  match v with
  | .vlist l => l.mapM recordSchema
  | other => (recordSchema other).map (fun e => [e])

/-! ## Code generation (`to_code`) -/

/-- One `cg` call emitted by `to_code`. -/
inductive CgCall where
  | newPvariable
  | registerComponent
  | addRecord (domain ip : String)
deriving DecidableEq

/-- Whether a generated call is an `add_record` call. -/
def isAddRecord : CgCall → Bool
  | .addRecord _ _ => true
  | _ => false

/-- The `to_code` coroutine of `components/dns_proxy/__init__.py`: create the
component variable, register it, then loop over `config[CONF_RECORDS]`
emitting `cg.add(var.add_record(record[CONF_DOMAIN], record[CONF_IP]))` for
each record in order. -/
def to_code (records : List (String × String)) : List CgCall :=
  records.foldl (fun calls r => calls ++ [CgCall.addRecord r.1 r.2])
    [CgCall.newPvariable, CgCall.registerComponent]

/-! ## IPv4 address parsing

Modelled from the spec: the core validates each configured address as a
well-formed IP literal ("Fails with `ConfigError` if ... any address fails to
parse").  Addresses are IPv4 dotted quads; the parsed form is the four
rdata bytes of an A record.
-/

/-- Split a character list on the dot separator. -/
def splitOnDot : List Char → List (List Char)
  | [] => [[]]
  | c :: rest =>
    let r := splitOnDot rest
    if c = '.' then [] :: r
    else
      match r with
      | [] => [[c]]
      | g :: gs => (c :: g) :: gs

/-- Numeric value of a decimal digit character, `none` for non-digits. -/
def digitVal (c : Char) : Option Nat :=
  if c.isDigit then some (c.toNat - 48) else none

/-- Parse one dotted-quad component: a non-empty digit string whose value is
at most 255. -/
def parseOctet (cs : List Char) : Option Nat :=
  match cs.mapM digitVal with
  | some ds =>
    if ds = [] then none
    else
      let n := ds.foldl (fun a d => a * 10 + d) 0
      if n ≤ 255 then some n else none
  | none => none

/-- Modelled from the spec: parse an IPv4 dotted-quad literal into its four
bytes; any other shape fails. -/
def parseIPv4 (s : String) : Option (List Nat) :=
  match splitOnDot s.data with
  | [a, b, c, d] =>
    match parseOctet a, parseOctet b, parseOctet c, parseOctet d with
    | some x, some y, some z, some w => some [x, y, z, w]
    | _, _, _, _ => none
  | _ => none

/-! ## Record Table

Modelled from the spec (§4.1): an in-memory mapping from normalized
(lowercased) domain name to address, built in bulk by `load`, queried by
`lookup` with exact case-insensitive match.
-/

/-- Lowercase a string (ASCII case folding, as DNS comparison requires). -/
def lowerStr (s : String) : String := ⟨s.data.map Char.toLower⟩

/-- The record table: a mapping from normalized name to address.
Modelled from the spec: "mapping keyed by normalized name". -/
def Table : Type := String → Option (List Nat)

/-- The empty table. -/
def emptyTable : Table := fun _ => none

/-- Insert a record, keying by the lowercased domain and replacing any
previous binding for the same key (dict insert). -/
def tblInsert (t : Table) (d : String) (a : List Nat) : Table :=
  fun n => if n = lowerStr d then some a else t n

/-- Modelled from the spec (§4.1): `load` starting from table `t`, consuming
the remaining `(domain, ip)` entries.  Fails with `ConfigError` on an empty
domain or an unparseable address; duplicate domains overwrite (last write
wins). -/
def loadFrom (t : Table) : List (String × String) → Except ConfigError Table
  | [] => .ok t
  | (d, i) :: rest =>
    if d = "" then .error .emptyDomain
    else
      match parseIPv4 i with
      | none => .error .badAddress
      | some a => loadFrom (tblInsert t d a) rest

/-- Modelled from the spec (§4.1): `load(entries)` replaces the entire table,
building it from the empty table. -/
def load (entries : List (String × String)) : Except ConfigError Table :=
  loadFrom emptyTable entries

/-- Modelled from the spec (§4.1): `lookup(name)` — exact case-insensitive
match, implemented by lowercasing the queried name before consulting the
normalized-key mapping. -/
def lookup (t : Table) (name : String) : Option (List Nat) :=
  t (lowerStr name)

/-! ## DNS message model

Modelled from the spec (§3): header with id, flag bits and four section
counts; questions; answers.  Domain names are kept in decoded form as their
list of labels, each label a list of bytes.
-/

/-- A domain name in decoded form: its labels, each a list of bytes. -/
abbrev Name : Type := List (List Nat)

/-- DNS header: id, the flag bitfield's components, and the four section
counts.  All numeric fields are machine integers on the wire (uint16 for id
and counts, 4-bit opcode and rcode, 3-bit z). -/
structure Header where
  id : Nat
  qr : Bool
  opcode : Nat
  aa : Bool
  tc : Bool
  rd : Bool
  ra : Bool
  z : Nat
  rcode : Nat
  qdcount : Nat
  ancount : Nat
  nscount : Nat
  arcount : Nat
deriving DecidableEq

/-- A question: qname, qtype, qclass (field `qcls` embeds the spec's
`qclass`). -/
structure Question where
  qname : Name
  qtype : Nat
  qcls : Nat
deriving DecidableEq

/-- A resource record: name, type, class, ttl, rdata (fields `rtype`/`rcls`
embed the spec's `type`/`class`). -/
structure ResourceRecord where
  name : Name
  rtype : Nat
  rcls : Nat
  ttl : Nat
  rdata : List Nat
deriving DecidableEq

/-- A DNS message: header, questions, answers.  The authority and additional
sections carry no data the responder uses; decode skips them. -/
structure DnsMessage where
  header : Header
  questions : List Question
  answers : List ResourceRecord
deriving DecidableEq

/-! ## Packet Codec: encode

Modelled from the spec (§4.2): serialize header then sections in order, names
emitted uncompressed as length-prefixed labels ending in a zero byte.
-/

/-- Big-endian two-byte encoding of a uint16 value. -/
def encU16 (x : Nat) : List Nat := [x / 256 % 256, x % 256]

/-- Big-endian four-byte encoding of a uint32 value. -/
def encU32 (x : Nat) : List Nat :=
  [x / 16777216 % 256, x / 65536 % 256, x / 256 % 256, x % 256]

/-- One wire label: length byte then label bytes. -/
def encLabel (l : List Nat) : List Nat := l.length :: l

/-- Uncompressed wire form of a name: its labels, then the zero terminator. -/
def encodeName (nm : Name) : List Nat := (nm.map encLabel).flatten ++ [0]

/-- High flag byte: QR bit 7, opcode bits 3-6, AA bit 2, TC bit 1, RD
bit 0. -/
def flagsHi (h : Header) : Nat :=
  (cond h.qr 128 0) + h.opcode * 8 + (cond h.aa 4 0) + (cond h.tc 2 0) +
    (cond h.rd 1 0)

/-- Low flag byte: RA bit 7, Z bits 4-6, RCODE bits 0-3. -/
def flagsLo (h : Header) : Nat :=
  (cond h.ra 128 0) + h.z * 16 + h.rcode

/-- The fixed 12-byte header encoding. -/
def encodeHeader (h : Header) : List Nat :=
  encU16 h.id ++ [flagsHi h, flagsLo h] ++ encU16 h.qdcount ++
    encU16 h.ancount ++ encU16 h.nscount ++ encU16 h.arcount

/-- Wire form of one question. -/
def encodeQuestion (q : Question) : List Nat :=
  encodeName q.qname ++ encU16 q.qtype ++ encU16 q.qcls

/-- Wire form of one resource record. -/
def encodeRR (r : ResourceRecord) : List Nat :=
  encodeName r.name ++ encU16 r.rtype ++ encU16 r.rcls ++ encU32 r.ttl ++
    encU16 r.rdata.length ++ r.rdata

/-- Modelled from the spec (§4.2): `encode(DnsMessage) -> bytes`. -/
def encode (m : DnsMessage) : List Nat :=
  encodeHeader m.header ++ (m.questions.map encodeQuestion).flatten ++
    (m.answers.map encodeRR).flatten

/-! ## Packet Codec: decode

Modelled from the spec (§4.2): failure (`MalformedPacketError`) is the `none`
result.  Name decoding reads length-prefixed labels until the zero
terminator, follows compression pointers only backwards (a pointer whose
14-bit target is at or past the pointer's own offset is rejected), and fails
rather than loops on overlong pointer chains: the `fuel` argument bounds the
number of decoding steps, and `decodeName` supplies more steps than any
non-corrupt message can need.
-/

/-- One name-decoding pass: at `pos`, read a label byte.  Zero terminates;
1–63 reads that many label bytes and continues; a byte with the top two bits
set (≥ 192) is a compression pointer and is followed only when its target
lies strictly before the pointer itself.  Anything else is malformed. -/
def readName (buf : List Nat) : Nat → Nat → Option (Name × Nat)
  | 0, _ => none
  | fuel + 1, pos =>
    match buf[pos]? with
    | none => none
    | some b =>
      if b = 0 then some ([], pos + 1)
      else if b < 64 then
        if pos + 1 + b ≤ buf.length then
          (readName buf fuel (pos + 1 + b)).map
            (fun r => ((buf.drop (pos + 1)).take b :: r.1, r.2))
        else none
      else if 192 ≤ b then
        match buf[pos + 1]? with
        | none => none
        | some b2 =>
          if (b - 192) * 256 + b2 < pos then
            (readName buf fuel ((b - 192) * 256 + b2)).map
              (fun r => (r.1, pos + 2))
          else none
      else none

/-- Step budget for name decoding: strictly more steps than any non-corrupt
message can need, so running out of steps means a pointer chain longer than
the message — corruption, which must fail. -/
def nameFuel (buf : List Nat) : Nat := (buf.length + 2) * (buf.length + 2)

/-- Decode one name at `pos`; the decoded name's total wire length must not
exceed 255 bytes. -/
def decodeName (buf : List Nat) (pos : Nat) : Option (Name × Nat) :=
  match readName buf (nameFuel buf) pos with
  | some (nm, e) => if (encodeName nm).length ≤ 255 then some (nm, e) else none
  | none => none

/-- Read a big-endian uint16 at `pos`. -/
def readU16 (buf : List Nat) (pos : Nat) : Option Nat :=
  match buf[pos]?, buf[pos + 1]? with
  | some a, some b => some (a * 256 + b)
  | _, _ => none

/-- Read a big-endian uint32 at `pos`. -/
def readU32 (buf : List Nat) (pos : Nat) : Option Nat :=
  match buf[pos]?, buf[pos + 1]?, buf[pos + 2]?, buf[pos + 3]? with
  | some a, some b, some c, some d =>
    some (a * 16777216 + b * 65536 + c * 256 + d)
  | _, _, _, _ => none

/-- Read `n` raw bytes at `pos`, failing on overrun. -/
def readBytes (buf : List Nat) (pos n : Nat) : Option (List Nat) :=
  if pos + n ≤ buf.length then some ((buf.drop pos).take n) else none

/-- Decode one question at `pos`. -/
def readQuestion (buf : List Nat) (pos : Nat) : Option (Question × Nat) :=
  match decodeName buf pos with
  | some (nm, p1) =>
    match readU16 buf p1, readU16 buf (p1 + 2) with
    | some t, some c => some (⟨nm, t, c⟩, p1 + 4)
    | _, _ => none
  | none => none

/-- Decode `n` questions starting at `pos`. -/
def readQuestions (buf : List Nat) (pos : Nat) :
    Nat → Option (List Question × Nat)
  | 0 => some ([], pos)
  | n + 1 =>
    match readQuestion buf pos with
    | some (q, p1) =>
      match readQuestions buf p1 n with
      | some (qs, p2) => some (q :: qs, p2)
      | none => none
    | none => none

/-- Decode one resource record at `pos`. -/
def readRR (buf : List Nat) (pos : Nat) : Option (ResourceRecord × Nat) :=
  match decodeName buf pos with
  | some (nm, p1) =>
    match readU16 buf p1, readU16 buf (p1 + 2), readU32 buf (p1 + 4),
        readU16 buf (p1 + 8) with
    | some ty, some cl, some ttl, some rdlen =>
      match readBytes buf (p1 + 10) rdlen with
      | some rd => some (⟨nm, ty, cl, ttl, rd⟩, p1 + 10 + rdlen)
      | none => none
    | _, _, _, _ => none
  | none => none

/-- Decode `n` resource records starting at `pos`. -/
def readRRs (buf : List Nat) (pos : Nat) :
    Nat → Option (List ResourceRecord × Nat)
  | 0 => some ([], pos)
  | n + 1 =>
    match readRR buf pos with
    | some (r, p1) =>
      match readRRs buf p1 n with
      | some (rs, p2) => some (r :: rs, p2)
      | none => none
    | none => none

/-- Decode the fixed 12-byte header; a buffer shorter than 12 bytes is
malformed. -/
def decodeHeader (buf : List Nat) : Option Header :=
  match buf with
  | b0 :: b1 :: b2 :: b3 :: b4 :: b5 :: b6 :: b7 :: b8 :: b9 :: b10 ::
      b11 :: _ =>
    some
      { id := b0 * 256 + b1
        qr := decide (b2 / 128 % 2 = 1)
        opcode := b2 / 8 % 16
        aa := decide (b2 / 4 % 2 = 1)
        tc := decide (b2 / 2 % 2 = 1)
        rd := decide (b2 % 2 = 1)
        ra := decide (b3 / 128 % 2 = 1)
        z := b3 / 16 % 8
        rcode := b3 % 16
        qdcount := b4 * 256 + b5
        ancount := b6 * 256 + b7
        nscount := b8 * 256 + b9
        arcount := b10 * 256 + b11 }
  | _ => none

/-- Modelled from the spec (§4.2): `decode(bytes) -> DnsMessage`.  Parses the
header, then `qdcount` questions, then `ancount` answers, then skips the
authority and additional sections (parsing them to validate the packet but
discarding their records).  `none` models `MalformedPacketError`. -/
def decode (buf : List Nat) : Option DnsMessage :=
  match decodeHeader buf with
  | none => none
  | some hdr =>
    match readQuestions buf 12 hdr.qdcount with
    | none => none
    | some (qs, p1) =>
      match readRRs buf p1 hdr.ancount with
      | none => none
      | some (ans, p2) =>
        match readRRs buf p2 hdr.nscount with
        | none => none
        | some (_, p3) =>
          match readRRs buf p3 hdr.arcount with
          | none => none
          | some (_, _) => some ⟨hdr, qs, ans⟩

/-! ## Query Resolver, Response Builder, Network Listener -/

/-- A resolver decision.  `noMatch` covers the silent-drop policy (§4.3):
no-match, unsupported qtype/qclass for a matched name, and the documented
implementation choice of silently dropping non-query or non-standard-opcode
messages. -/
inductive Decision where
  | answer (name : Name) (addr : List Nat) (ttl : Nat)
  | noMatch
deriving DecidableEq

/-- Textual (dot-separated) form of a decoded name. -/
def nameToText (nm : Name) : String :=
  ⟨List.intercalate ['.'] (nm.map (fun l => l.map Char.ofNat))⟩

/-- Strip one trailing dot, if present. -/
def stripTrailingDot (s : String) : String :=
  match s.data.getLast? with
  | some c => if c = '.' then ⟨s.data.dropLast⟩ else s
  | none => s

/-- The configurable answer TTL's default (spec §4.4: "default e.g. 60s"). -/
def defaultTTL : Nat := 60

/-- Modelled from the spec (§4.3): the per-query resolver decision.  Requires
QR=0 and opcode=STANDARD (otherwise silently drop); normalizes the qname
(lowercasing happens inside `lookup`, the trailing dot is stripped here);
answers only when the name is found and the question is type A (1), class
IN (1). -/
def resolve (t : Table) (m : DnsMessage) : Decision :=
  if m.header.qr then .noMatch
  else if m.header.opcode ≠ 0 then .noMatch
  else
    match m.questions with
    | [q] =>
      match lookup t (stripTrailingDot (nameToText q.qname)) with
      | some a =>
        if q.qtype = 1 ∧ q.qcls = 1 then .answer q.qname a defaultTTL
        else .noMatch
      | none => .noMatch
    | _ => .noMatch

/-- Modelled from the spec (§4.4): `build(query, decision)` for an `Answer`
decision: copy the query id and Question section, set QR=1, AA=1,
RCODE=NOERROR, ancount=1, and emit one A/IN record carrying the configured
address. -/
def build (q : DnsMessage) (nm : Name) (a : List Nat) (ttl : Nat) :
    DnsMessage :=
  { header :=
      { id := q.header.id
        qr := true
        opcode := q.header.opcode
        aa := true
        tc := false
        rd := q.header.rd
        ra := false
        z := 0
        rcode := 0
        qdcount := q.questions.length
        ancount := 1
        nscount := 0
        arcount := 0 }
    questions := q.questions
    answers := [{ name := nm, rtype := 1, rcls := 1, ttl := ttl, rdata := a }] }

/-- Modelled from the spec (§4.5): per-datagram handling in the Listener's
receive loop.  A malformed packet is dropped; a `noMatch` decision sends no
reply; an `answer` decision sends the encoded built response. -/
def handle (t : Table) (buf : List Nat) : Option (List Nat) :=
  match decode buf with
  | none => none
  | some m =>
    match resolve t m with
    | .answer nm a ttl => some (encode (build m nm a ttl))
    | .noMatch => none

/-! ## Reload concurrency model

Modelled from the spec (§5): a reload builds the replacement table in a
private scratch area and then publishes it with a single atomic reference
swap.  Concurrent lookups read the published reference.  The reload of `n`
entries is `n + 1` atomic steps: one insert into the scratch table per entry,
then the publish; a concurrent lookup interleaves by running after some
prefix of those steps.
-/

/-- The shared state during a reload: the published table (what lookups
read) and the reload's private scratch table. -/
structure ReloadState where
  published : Table
  scratch : Table

/-- The table a reload of `entries` will publish (wholesale replacement,
starting from empty). -/
def newTable (entries : List (String × List Nat)) : Table :=
  entries.foldl (fun t e => tblInsert t e.1 e.2) emptyTable

/-- One atomic reload step: step `k < n` inserts entry `k` into the scratch
table; step `n` publishes the scratch table; later steps do nothing. -/
def reloadStep (entries : List (String × List Nat)) (s : ReloadState × Nat) :
    ReloadState × Nat :=
  match s.1, s.2 with
  | st, k =>
    if hk : k < entries.length then
      ({ st with scratch := tblInsert st.scratch entries[k].1 entries[k].2 },
        k + 1)
    else if k = entries.length then
      ({ st with published := st.scratch }, k + 1)
    else (st, k + 1)

/-- The shared state after the first `p` atomic steps of a reload of
`entries` over the previously published table `old`. -/
def runReload (old : Table) (entries : List (String × List Nat)) (p : Nat) :
    ReloadState × Nat :=
  Nat.iterate (reloadStep entries) p (⟨old, emptyTable⟩, 0)

/-! ## Helper lemmas: reading at a position in a buffer -/

theorem drop_eq_cons {buf rest : List Nat} {p a : Nat}
    (h : buf.drop p = a :: rest) :
    buf[p]? = some a ∧ buf.drop (p + 1) = rest ∧ p < buf.length := by
  induction p generalizing buf with
  | zero =>
    simp only [List.drop_zero] at h
    subst h
    simp
  | succ n ih =>
    cases buf with
    | nil => simp at h
    | cons x xs =>
      simp only [List.drop_succ_cons] at h
      obtain ⟨h1, h2, h3⟩ := ih h
      refine ⟨by simpa using h1, ?_, by simpa using h3⟩
      simpa using h2

theorem drop_chunk {buf : List Nat} {p : Nat} {chunk rest : List Nat}
    (hp : p ≤ buf.length) (h : buf.drop p = chunk ++ rest) :
    buf.drop (p + chunk.length) = rest ∧ p + chunk.length ≤ buf.length := by
  induction chunk generalizing p with
  | nil => simpa using ⟨h, hp⟩
  | cons c cs ih =>
    simp only [List.cons_append] at h
    obtain ⟨_, h2, h3⟩ := drop_eq_cons h
    obtain ⟨h4, h5⟩ := @ih (p + 1) (by omega) h2
    constructor
    · calc buf.drop (p + (c :: cs).length) = buf.drop (p + 1 + cs.length) := by
            simp only [List.length_cons]; ring_nf
      _ = rest := h4
    · simp only [List.length_cons]; omega

theorem readBytes_of_drop {buf : List Nat} {p : Nat} {chunk rest : List Nat}
    (hp : p ≤ buf.length) (h : buf.drop p = chunk ++ rest) :
    readBytes buf p chunk.length = some chunk := by
  obtain ⟨_, h2⟩ := drop_chunk hp h
  unfold readBytes
  rw [if_pos h2, h, List.take_left]

theorem readU16_of_drop {buf rest : List Nat} {p a b : Nat}
    (h : buf.drop p = a :: b :: rest) :
    readU16 buf p = some (a * 256 + b) ∧ buf.drop (p + 2) = rest ∧
      p + 2 ≤ buf.length := by
  obtain ⟨h1, h2, h3⟩ := drop_eq_cons h
  obtain ⟨h4, h5, h6⟩ := drop_eq_cons h2
  refine ⟨?_, by rw [show p + 2 = p + 1 + 1 by omega]; exact h5, by omega⟩
  unfold readU16
  rw [h1, h4]

theorem readU32_of_drop {buf rest : List Nat} {p a b c d : Nat}
    (h : buf.drop p = a :: b :: c :: d :: rest) :
    readU32 buf p = some (a * 16777216 + b * 65536 + c * 256 + d) ∧
      buf.drop (p + 4) = rest ∧ p + 4 ≤ buf.length := by
  obtain ⟨h1, h2, _⟩ := drop_eq_cons h
  obtain ⟨h4, h5, _⟩ := drop_eq_cons h2
  obtain ⟨h7, h8, _⟩ := drop_eq_cons h5
  obtain ⟨h10, h11, h12⟩ := drop_eq_cons h8
  have e2 : p + 1 + 1 = p + 2 := by omega
  have e3 : p + 1 + 1 + 1 = p + 3 := by omega
  have e4 : p + 1 + 1 + 1 + 1 = p + 4 := by omega
  rw [e2] at h7
  rw [e2, e3] at h10
  rw [e2, e3, e4] at h11
  refine ⟨?_, h11, by omega⟩
  unfold readU32
  rw [h1, h4, h7, h10]

/-! ## Helper lemmas: names and their wire form -/

theorem encodeName_nil : encodeName ([] : Name) = [0] := by
  simp [encodeName]

theorem encodeName_cons (l : List Nat) (ls : Name) :
    encodeName (l :: ls) = l.length :: (l ++ encodeName ls) := by
  simp [encodeName, encLabel]

theorem length_lt_encodeName_length (nm : Name) :
    nm.length < (encodeName nm).length := by
  induction nm with
  | nil => simp [encodeName_nil]
  | cons l ls ih =>
    rw [encodeName_cons]
    simp only [List.length_cons, List.length_append]
    omega

theorem readName_of_drop_encode {buf : List Nat} (nm : Name) :
    ∀ (fuel p : Nat) (rest : List Nat),
      (∀ l ∈ nm, l ≠ [] ∧ l.length ≤ 63) → nm.length < fuel →
      p ≤ buf.length → buf.drop p = encodeName nm ++ rest →
      readName buf fuel p = some (nm, p + (encodeName nm).length) := by
  induction nm with
  | nil =>
    intro fuel p rest _ hfuel hp hdrop
    obtain ⟨fuel, rfl⟩ : ∃ f, fuel = f + 1 := ⟨fuel - 1, by omega⟩
    rw [encodeName_nil] at hdrop ⊢
    simp only [List.cons_append, List.nil_append] at hdrop
    obtain ⟨h1, _, _⟩ := drop_eq_cons hdrop
    simp [readName, h1]
  | cons l ls ih =>
    intro fuel p rest hlab hfuel hp hdrop
    obtain ⟨fuel, rfl⟩ : ∃ f, fuel = f + 1 := ⟨fuel - 1, by omega⟩
    · obtain ⟨hne, hle⟩ := hlab l (by simp)
      rw [encodeName_cons] at hdrop
      simp only [List.cons_append, List.append_assoc] at hdrop
      obtain ⟨h1, h2, h3⟩ := drop_eq_cons hdrop
      obtain ⟨h4, h5⟩ := drop_chunk (by omega) h2
      have hlen0 : l.length ≠ 0 := by
        intro hc; exact hne (List.eq_nil_of_length_eq_zero hc)
      have htake : (buf.drop (p + 1)).take l.length = l := by
        rw [h2, List.take_left]
      have hfuel2 : ls.length < fuel := by
        simp only [List.length_cons] at hfuel
        omega
      have hrec := ih fuel (p + 1 + l.length) rest
        (fun x hx => hlab x (by simp [hx])) hfuel2 (by omega) h4
      have h64 : l.length < 64 := by omega
      have hfit : p + 1 + l.length ≤ buf.length := by omega
      simp only [readName, h1]
      rw [if_neg hlen0, if_pos h64, if_pos hfit, hrec]
      simp only [Option.map_some']
      rw [htake, encodeName_cons]
      simp only [List.length_cons, List.length_append]
      congr 2
      omega

theorem buflen_lt_nameFuel (buf : List Nat) : buf.length < nameFuel buf := by
  unfold nameFuel
  nlinarith [buf.length.zero_le]

theorem encodeName_length_le {buf : List Nat} {p : Nat} {nm : Name}
    {rest : List Nat} (hp : p ≤ buf.length)
    (hdrop : buf.drop p = encodeName nm ++ rest) :
    (encodeName nm).length + rest.length + p = buf.length := by
  have hlen : (buf.drop p).length = buf.length - p := List.length_drop p buf
  rw [hdrop] at hlen
  simp only [List.length_append] at hlen
  omega

theorem decodeName_of_drop_encode {buf : List Nat} {nm : Name} {p : Nat}
    {rest : List Nat} (hlab : ∀ l ∈ nm, l ≠ [] ∧ l.length ≤ 63)
    (hsz : (encodeName nm).length ≤ 255) (hp : p ≤ buf.length)
    (hdrop : buf.drop p = encodeName nm ++ rest) :
    decodeName buf p = some (nm, p + (encodeName nm).length) ∧
      buf.drop (p + (encodeName nm).length) = rest ∧
      p + (encodeName nm).length ≤ buf.length := by
  have hbound := encodeName_length_le hp hdrop
  have hnm := length_lt_encodeName_length nm
  have hfuel : nm.length < nameFuel buf := by
    have := buflen_lt_nameFuel buf
    omega
  have hread := readName_of_drop_encode nm (nameFuel buf) p rest hlab hfuel hp
    hdrop
  obtain ⟨h4, h5⟩ := drop_chunk hp hdrop
  refine ⟨?_, h4, h5⟩
  unfold decodeName
  rw [hread]
  exact if_pos hsz

/-! ## Validity of constructed messages

A "validly constructed" DnsMessage per the spec's data-model invariants:
labels are non-empty and at most 63 bytes, a name's wire form is at most 255
bytes, all numeric fields fit their machine-integer width, and the header
counts match the sections (the model stores no authority/additional records,
so those counts are zero).
-/

/-- A valid wire label: non-empty, at most 63 bytes, byte-valued. -/
def validLabel (l : List Nat) : Prop :=
  l ≠ [] ∧ l.length ≤ 63 ∧ ∀ b ∈ l, b < 256

instance (l : List Nat) : Decidable (validLabel l) := by
  unfold validLabel; infer_instance

/-- A valid name: valid labels and wire form at most 255 bytes. -/
def validName (nm : Name) : Prop :=
  (∀ l ∈ nm, validLabel l) ∧ (encodeName nm).length ≤ 255

instance (nm : Name) : Decidable (validName nm) := by
  unfold validName; infer_instance

/-- A valid question: valid name, uint16 qtype and qclass. -/
def validQuestion (q : Question) : Prop :=
  validName q.qname ∧ q.qtype < 65536 ∧ q.qcls < 65536

instance (q : Question) : Decidable (validQuestion q) := by
  unfold validQuestion; infer_instance

/-- A valid resource record: valid name, uint16 type/class, uint32 ttl,
byte-valued rdata of uint16 length. -/
def validRR (r : ResourceRecord) : Prop :=
  validName r.name ∧ r.rtype < 65536 ∧ r.rcls < 65536 ∧ r.ttl < 4294967296 ∧
    r.rdata.length < 65536 ∧ ∀ b ∈ r.rdata, b < 256

instance (r : ResourceRecord) : Decidable (validRR r) := by
  unfold validRR; infer_instance

/-- A validly constructed message: fields in machine-integer range, counts
matching the sections, and valid questions and answers. -/
def validMsg (m : DnsMessage) : Prop :=
  m.header.id < 65536 ∧ m.header.opcode < 16 ∧ m.header.z < 8 ∧
    m.header.rcode < 16 ∧ m.header.qdcount = m.questions.length ∧
    m.header.ancount = m.answers.length ∧ m.header.nscount = 0 ∧
    m.header.arcount = 0 ∧ m.questions.length < 65536 ∧
    m.answers.length < 65536 ∧ (∀ q ∈ m.questions, validQuestion q) ∧
    ∀ r ∈ m.answers, validRR r

instance (m : DnsMessage) : Decidable (validMsg m) := by
  unfold validMsg; infer_instance

/-! ## Round trip: questions -/

theorem readQuestion_of_drop {buf : List Nat} {q : Question} {p : Nat}
    {rest : List Nat} (hv : validQuestion q) (hp : p ≤ buf.length)
    (hdrop : buf.drop p = encodeQuestion q ++ rest) :
    readQuestion buf p = some (q, p + (encodeQuestion q).length) ∧
      buf.drop (p + (encodeQuestion q).length) = rest ∧
      p + (encodeQuestion q).length ≤ buf.length := by
  obtain ⟨⟨hlab, hsz⟩, hqt, hqc⟩ := hv
  have hdrop1 : buf.drop p =
      encodeName q.qname ++
        ((q.qtype / 256 % 256) :: (q.qtype % 256) ::
          (q.qcls / 256 % 256) :: (q.qcls % 256) :: rest) := by
    rw [hdrop]
    simp [encodeQuestion, encU16]
  obtain ⟨hdn, hd2, hp2⟩ := decodeName_of_drop_encode
    (fun l hl => ⟨(hlab l hl).1, (hlab l hl).2.1⟩) hsz hp hdrop1
  obtain ⟨hu1, hd3, hp3⟩ := readU16_of_drop hd2
  obtain ⟨hu2, hd4, hp4⟩ := readU16_of_drop hd3
  have hv1 : q.qtype / 256 % 256 * 256 + q.qtype % 256 = q.qtype := by omega
  have hv2 : q.qcls / 256 % 256 * 256 + q.qcls % 256 = q.qcls := by omega
  rw [hv1] at hu1
  rw [hv2] at hu2
  have hlen : (encodeQuestion q).length = (encodeName q.qname).length + 4 := by
    simp [encodeQuestion, encU16]
  have hpos : p + (encodeQuestion q).length =
      p + (encodeName q.qname).length + 2 + 2 := by omega
  refine ⟨?_, by rw [hpos]; exact hd4, by omega⟩
  unfold readQuestion
  rw [hdn]
  simp only [hu1, hu2, hpos]

theorem readQuestions_of_drop {buf : List Nat} (qs : List Question) :
    ∀ (p : Nat) (rest : List Nat), (∀ q ∈ qs, validQuestion q) →
      p ≤ buf.length →
      buf.drop p = (qs.map encodeQuestion).flatten ++ rest →
      readQuestions buf p qs.length =
          some (qs, p + ((qs.map encodeQuestion).flatten).length) ∧
        buf.drop (p + ((qs.map encodeQuestion).flatten).length) = rest ∧
        p + ((qs.map encodeQuestion).flatten).length ≤ buf.length := by
  induction qs with
  | nil =>
    intro p rest _ hp hdrop
    simp only [List.map_nil, List.flatten_nil, List.length_nil,
      Nat.add_zero, List.nil_append] at hdrop ⊢
    exact ⟨rfl, hdrop, hp⟩
  | cons q qs ih =>
    intro p rest hv hp hdrop
    simp only [List.map_cons, List.flatten_cons, List.append_assoc] at hdrop
    obtain ⟨hq, hd2, hp2⟩ :=
      readQuestion_of_drop (hv q (by simp)) hp hdrop
    obtain ⟨hqs, hd3, hp3⟩ := ih (p + (encodeQuestion q).length) rest
      (fun x hx => hv x (by simp [hx])) hp2 hd2
    have hl : ((List.map encodeQuestion (q :: qs)).flatten).length =
        (encodeQuestion q).length +
          ((List.map encodeQuestion qs).flatten).length := by
      simp
    refine ⟨?_, by rw [hl, ← Nat.add_assoc]; exact hd3, by omega⟩
    rw [show (q :: qs).length = qs.length + 1 from rfl]
    unfold readQuestions
    simp only [hq, hqs, hl, Nat.add_assoc]

/-! ## Round trip: resource records -/

theorem readRR_of_drop {buf : List Nat} {r : ResourceRecord} {p : Nat}
    {rest : List Nat} (hv : validRR r) (hp : p ≤ buf.length)
    (hdrop : buf.drop p = encodeRR r ++ rest) :
    readRR buf p = some (r, p + (encodeRR r).length) ∧
      buf.drop (p + (encodeRR r).length) = rest ∧
      p + (encodeRR r).length ≤ buf.length := by
  obtain ⟨⟨hlab, hsz⟩, ht, hc, httl, hrdl, _⟩ := hv
  have hdrop1 : buf.drop p =
      encodeName r.name ++
        ((r.rtype / 256 % 256) :: (r.rtype % 256) ::
          (r.rcls / 256 % 256) :: (r.rcls % 256) ::
          (r.ttl / 16777216 % 256) :: (r.ttl / 65536 % 256) ::
          (r.ttl / 256 % 256) :: (r.ttl % 256) ::
          (r.rdata.length / 256 % 256) :: (r.rdata.length % 256) ::
          (r.rdata ++ rest)) := by
    rw [hdrop]
    simp [encodeRR, encU16, encU32]
  obtain ⟨hdn, hd2, hp2⟩ := decodeName_of_drop_encode
    (fun l hl => ⟨(hlab l hl).1, (hlab l hl).2.1⟩) hsz hp hdrop1
  obtain ⟨hu1, hd3, hp3⟩ := readU16_of_drop hd2
  obtain ⟨hu2, hd4, hp4⟩ := readU16_of_drop hd3
  obtain ⟨hu3, hd5, hp5⟩ := readU32_of_drop hd4
  obtain ⟨hu4, hd6, hp6⟩ := readU16_of_drop hd5
  set p1 := p + (encodeName r.name).length with hp1
  have e1 : p1 + 2 + 2 = p1 + 4 := by omega
  have e2 : p1 + 2 + 2 + 4 = p1 + 8 := by omega
  have e3 : p1 + 2 + 2 + 4 + 2 = p1 + 10 := by omega
  rw [e1] at hu3 hd5 hp5
  rw [e1, e2] at hu4 hd6 hp6
  have hv1 : r.rtype / 256 % 256 * 256 + r.rtype % 256 = r.rtype := by omega
  have hv2 : r.rcls / 256 % 256 * 256 + r.rcls % 256 = r.rcls := by omega
  have hv3 : r.ttl / 16777216 % 256 * 16777216 + r.ttl / 65536 % 256 * 65536 +
      r.ttl / 256 % 256 * 256 + r.ttl % 256 = r.ttl := by omega
  have hv4 : r.rdata.length / 256 % 256 * 256 + r.rdata.length % 256 =
      r.rdata.length := by omega
  rw [hv1] at hu1
  rw [hv2] at hu2
  rw [hv3] at hu3
  rw [hv4] at hu4
  have hd6' : buf.drop (p1 + 10) = r.rdata ++ rest := by
    rw [show p1 + 10 = p1 + 8 + 2 by omega]
    exact hd6
  have hrb : readBytes buf (p1 + 10) r.rdata.length = some r.rdata :=
    readBytes_of_drop (by omega) hd6'
  obtain ⟨hd7, hp7⟩ := drop_chunk (by omega) hd6'
  have hlen : (encodeRR r).length =
      (encodeName r.name).length + 10 + r.rdata.length := by
    simp [encodeRR, encU16, encU32]
    omega
  have hpos : p + (encodeRR r).length = p1 + 10 + r.rdata.length := by omega
  refine ⟨?_, by rw [hpos]; exact hd7, by omega⟩
  unfold readRR
  rw [hdn]
  simp only [hu1, hu2, hu3, hu4, hrb, hpos]

theorem readRRs_of_drop {buf : List Nat} (rs : List ResourceRecord) :
    ∀ (p : Nat) (rest : List Nat), (∀ r ∈ rs, validRR r) →
      p ≤ buf.length →
      buf.drop p = (rs.map encodeRR).flatten ++ rest →
      readRRs buf p rs.length =
          some (rs, p + ((rs.map encodeRR).flatten).length) ∧
        buf.drop (p + ((rs.map encodeRR).flatten).length) = rest ∧
        p + ((rs.map encodeRR).flatten).length ≤ buf.length := by
  induction rs with
  | nil =>
    intro p rest _ hp hdrop
    simp only [List.map_nil, List.flatten_nil, List.length_nil,
      Nat.add_zero, List.nil_append] at hdrop ⊢
    exact ⟨rfl, hdrop, hp⟩
  | cons r rs ih =>
    intro p rest hv hp hdrop
    simp only [List.map_cons, List.flatten_cons, List.append_assoc] at hdrop
    obtain ⟨hr, hd2, hp2⟩ := readRR_of_drop (hv r (by simp)) hp hdrop
    obtain ⟨hrs, hd3, hp3⟩ := ih (p + (encodeRR r).length) rest
      (fun x hx => hv x (by simp [hx])) hp2 hd2
    have hl : ((List.map encodeRR (r :: rs)).flatten).length =
        (encodeRR r).length + ((List.map encodeRR rs).flatten).length := by
      simp
    refine ⟨?_, by rw [hl, ← Nat.add_assoc]; exact hd3, by omega⟩
    rw [show (r :: rs).length = rs.length + 1 from rfl]
    unfold readRRs
    simp only [hr, hrs, hl, Nat.add_assoc]

/-! ## Round trip: header -/

theorem encodeHeader_cons (h : Header) :
    encodeHeader h =
      (h.id / 256 % 256) :: (h.id % 256) :: flagsHi h :: flagsLo h ::
        (h.qdcount / 256 % 256) :: (h.qdcount % 256) ::
        (h.ancount / 256 % 256) :: (h.ancount % 256) ::
        (h.nscount / 256 % 256) :: (h.nscount % 256) ::
        (h.arcount / 256 % 256) :: (h.arcount % 256) :: [] := by
  simp [encodeHeader, encU16]

theorem encodeHeader_length (h : Header) : (encodeHeader h).length = 12 := by
  rw [encodeHeader_cons]
  rfl

theorem decodeHeader_encode (h : Header) (body : List Nat)
    (hid : h.id < 65536) (hop : h.opcode < 16) (hz : h.z < 8)
    (hrc : h.rcode < 16) (hqd : h.qdcount < 65536) (han : h.ancount < 65536)
    (hns : h.nscount < 65536) (har : h.arcount < 65536) :
    decodeHeader (encodeHeader h ++ body) = some h := by
  obtain ⟨id, qr, opcode, aa, tc, rd, ra, z, rcode, qd, an, ns, ar⟩ := h
  have hid2 : id < 65536 := hid
  have hop2 : opcode < 16 := hop
  have hz2 : z < 8 := hz
  have hrc2 : rcode < 16 := hrc
  have hqd2 : qd < 65536 := hqd
  have han2 : an < 65536 := han
  have hns2 : ns < 65536 := hns
  have har2 : ar < 65536 := har
  clear hid hop hz hrc hqd han hns har
  rw [encodeHeader_cons]
  simp only [List.cons_append, List.nil_append]
  simp only [decodeHeader, Option.some.injEq, Header.mk.injEq]
  refine ⟨by omega, ?_, ?_, ?_, ?_, ?_, ?_, ?_, ?_, by omega, by omega,
    by omega, by omega⟩
  · cases qr <;> cases aa <;> cases tc <;> cases rd <;>
      simp [flagsHi, decide_eq_true_iff, decide_eq_false_iff_not] <;> omega
  · cases qr <;> cases aa <;> cases tc <;> cases rd <;>
      simp [flagsHi] <;> omega
  · cases qr <;> cases aa <;> cases tc <;> cases rd <;>
      simp [flagsHi, decide_eq_true_iff, decide_eq_false_iff_not] <;> omega
  · cases qr <;> cases aa <;> cases tc <;> cases rd <;>
      simp [flagsHi, decide_eq_true_iff, decide_eq_false_iff_not] <;> omega
  · cases qr <;> cases aa <;> cases tc <;> cases rd <;>
      simp [flagsHi, decide_eq_true_iff, decide_eq_false_iff_not] <;> omega
  · cases ra <;>
      simp [flagsLo, decide_eq_true_iff, decide_eq_false_iff_not] <;> omega
  · cases ra <;> simp [flagsLo] <;> omega
  · cases ra <;> simp [flagsLo] <;> omega

/-! ## Round trip: full messages -/

/-- Codec round trip: decoding an encoded validly-constructed message
reproduces the message exactly. -/
theorem decode_encode_of_valid (m : DnsMessage) (hv : validMsg m) :
    decode (encode m) = some m := by
  obtain ⟨hid, hop, hz, hrc, hqd, han, hns, har, hql, hal, hvq, hvr⟩ := hv
  have hdr : decodeHeader (encode m) = some m.header := by
    unfold encode
    rw [List.append_assoc]
    exact decodeHeader_encode m.header _ hid hop hz hrc (by omega) (by omega)
      (by omega) (by omega)
  have hbody : (encode m).drop 12 =
      (m.questions.map encodeQuestion).flatten ++
        ((m.answers.map encodeRR).flatten ++ []) := by
    unfold encode
    rw [List.append_assoc, ← encodeHeader_length m.header, List.drop_left,
      List.append_nil]
  have h12 : 12 ≤ (encode m).length := by
    unfold encode
    rw [List.length_append, List.length_append, encodeHeader_length]
    omega
  obtain ⟨hqs, hd2, hp2⟩ := readQuestions_of_drop m.questions 12 _ hvq h12
    hbody
  rw [List.append_nil] at hd2
  obtain ⟨hans, hd3, hp3⟩ := readRRs_of_drop m.answers
    (12 + ((m.questions.map encodeQuestion).flatten).length) [] hvr hp2
    (by rw [hd2, List.append_nil])
  unfold decode
  simp only [hdr, hqd, hqs, han, hans, hns, har, readRRs]

/-! ## Short buffers are malformed -/

theorem decodeHeader_eq_none_of_short {buf : List Nat}
    (h : buf.length < 12) : decodeHeader buf = none := by
  rcases buf with _ | ⟨a0, _ | ⟨a1, _ | ⟨a2, _ | ⟨a3, _ | ⟨a4, _ | ⟨a5,
    _ | ⟨a6, _ | ⟨a7, _ | ⟨a8, _ | ⟨a9, _ | ⟨a10, _ | ⟨a11, t⟩⟩⟩⟩⟩⟩⟩⟩⟩⟩⟩⟩ <;>
    first
    | rfl
    | (simp only [List.length_cons] at h; omega)

/-! ## Resolver inversion -/

theorem resolve_answer_inv {t : Table} {m : DnsMessage} {nm : Name}
    {a : List Nat} {ttl : Nat} (h : resolve t m = .answer nm a ttl) :
    m.header.qr = false ∧ m.header.opcode = 0 ∧
      ∃ q, m.questions = [q] ∧ nm = q.qname ∧ ttl = defaultTTL ∧
        q.qtype = 1 ∧ q.qcls = 1 ∧
        lookup t (stripTrailingDot (nameToText q.qname)) = some a := by
  unfold resolve at h
  by_cases hqr : m.header.qr
  · rw [if_pos hqr] at h
    exact absurd h (by simp)
  · rw [if_neg hqr] at h
    by_cases hop : m.header.opcode = 0
    · rw [if_neg (by simp [hop])] at h
      rcases hql : m.questions with _ | ⟨q, _ | ⟨q2, qs⟩⟩
      · rw [hql] at h
        exact absurd h (by simp)
      · rw [hql] at h
        have h2 : (match lookup t (stripTrailingDot (nameToText q.qname)) with
            | some a =>
              if q.qtype = 1 ∧ q.qcls = 1 then
                Decision.answer q.qname a defaultTTL
              else Decision.noMatch
            | none => Decision.noMatch) = Decision.answer nm a ttl := h
        rcases hlk : lookup t (stripTrailingDot (nameToText q.qname)) with
          _ | a2
        · rw [hlk] at h2
          exact absurd h2 (by simp)
        · have h3 : (if q.qtype = 1 ∧ q.qcls = 1 then
                Decision.answer q.qname a2 defaultTTL
              else Decision.noMatch) = Decision.answer nm a ttl := by
            rw [hlk] at h2
            exact h2
          by_cases hqt : q.qtype = 1 ∧ q.qcls = 1
          · rw [if_pos hqt] at h3
            obtain ⟨h4, h5, h6⟩ := Decision.answer.inj h3
            exact ⟨eq_false_of_ne_true hqr, hop,
              q, rfl, h4.symm, h6.symm, hqt.1, hqt.2, by rw [hlk, h5]⟩
          · rw [if_neg hqt] at h3
            exact absurd h3 (by simp)
      · rw [hql] at h
        exact absurd h (by simp)
    · rw [if_pos hop] at h
      exact absurd h (by simp)

theorem resolve_noMatch_of_absent {t : Table} {m : DnsMessage}
    (habs : ∀ q ∈ m.questions,
      lookup t (stripTrailingDot (nameToText q.qname)) = none) :
    resolve t m = .noMatch := by
  unfold resolve
  by_cases hqr : m.header.qr
  · rw [if_pos hqr]
  · rw [if_neg hqr]
    by_cases hop : m.header.opcode = 0
    · rw [if_neg (by simp [hop])]
      rcases hql : m.questions with _ | ⟨q, _ | ⟨q2, qs⟩⟩
      · rfl
      · have hl := habs q (by rw [hql]; simp)
        show (match lookup t (stripTrailingDot (nameToText q.qname)) with
            | some a =>
              if q.qtype = 1 ∧ q.qcls = 1 then
                Decision.answer q.qname a defaultTTL
              else Decision.noMatch
            | none => Decision.noMatch) = Decision.noMatch
        rw [hl]
      · rfl
    · rw [if_pos hop]

/-! ## Table lemmas -/

/-- An individually acceptable entry: non-empty domain, parseable address. -/
def validEntry (e : String × String) : Prop :=
  e.1 ≠ "" ∧ (parseIPv4 e.2).isSome = true

instance (e : String × String) : Decidable (validEntry e) := by
  unfold validEntry; infer_instance

theorem loadFrom_ok (entries : List (String × String)) :
    ∀ t0 : Table, (∀ e ∈ entries, validEntry e) →
      ∃ t, loadFrom t0 entries = .ok t := by
  induction entries with
  | nil => intro t0 _; exact ⟨t0, rfl⟩
  | cons e rest ih =>
    intro t0 hv
    obtain ⟨hd, hip⟩ := hv e (by simp)
    obtain ⟨a, ha⟩ := Option.isSome_iff_exists.mp hip
    obtain ⟨t, ht⟩ := ih (tblInsert t0 e.1 a) (fun x hx => hv x (by simp [hx]))
    refine ⟨t, ?_⟩
    obtain ⟨d, i⟩ := e
    unfold loadFrom
    rw [if_neg hd, ha]
    exact ht

theorem loadFrom_lookup (entries : List (String × String)) :
    ∀ (t0 t : Table), loadFrom t0 entries = .ok t → ∀ name,
      lookup t name =
        match entries.reverse.find?
            (fun e => lowerStr e.1 == lowerStr name) with
        | some e => parseIPv4 e.2
        | none => lookup t0 name := by
  induction entries with
  | nil =>
    intro t0 t h name
    obtain rfl : t0 = t := Except.ok.inj h
    rfl
  | cons e rest ih =>
    intro t0 t h name
    obtain ⟨d, i⟩ := e
    unfold loadFrom at h
    by_cases hd : d = ""
    · rw [if_pos hd] at h
      exact absurd h (by simp)
    · rw [if_neg hd] at h
      rcases hip : parseIPv4 i with _ | a
      · rw [hip] at h
        exact absurd h (by simp)
      · rw [hip] at h
        have hrec := ih (tblInsert t0 d a) t h name
        rw [List.reverse_cons, List.find?_append]
        rcases hfind : List.find? (fun e => lowerStr e.1 == lowerStr name)
            rest.reverse with _ | e2
        · simp only [hfind, Option.none_or] at hrec ⊢
          by_cases hbeq : lowerStr d = lowerStr name
          · have hsingle : List.find?
                (fun e => lowerStr e.1 == lowerStr name) [(d, i)] =
                some (d, i) := by
              simp [List.find?, hbeq]
            simp only [hsingle]
            rw [hrec]
            unfold lookup tblInsert
            rw [if_pos hbeq.symm, hip]
          · have hb2 : (lowerStr d == lowerStr name) = false := by
              simpa using hbeq
            have hsingle : List.find?
                (fun e => lowerStr e.1 == lowerStr name) [(d, i)] =
                (none : Option (String × String)) := by
              simp [List.find?, hb2]
            simp only [hsingle]
            rw [hrec]
            unfold lookup tblInsert
            rw [if_neg (fun hc => hbeq hc.symm)]
        · simp only [hfind, Option.or_some] at hrec ⊢
          exact hrec

theorem loadFrom_valid (entries : List (String × String)) :
    ∀ t0 t : Table, loadFrom t0 entries = .ok t →
      ∀ e ∈ entries, validEntry e := by
  induction entries with
  | nil =>
    intro t0 t _ e he
    exact absurd he (List.not_mem_nil e)
  | cons x rest ih =>
    intro t0 t h e he
    obtain ⟨d, i⟩ := x
    unfold loadFrom at h
    by_cases hd : d = ""
    · rw [if_pos hd] at h
      exact absurd h (by simp)
    · rw [if_neg hd] at h
      rcases hip : parseIPv4 i with _ | a
      · rw [hip] at h
        exact absurd h (by simp)
      · rw [hip] at h
        rcases List.mem_cons.mp he with rfl | hmem
        · exact ⟨hd, by simp [hip]⟩
        · exact ih (tblInsert t0 d a) t h e hmem

/-! ## Reload lemmas -/

theorem runReload_spec (old : Table) (entries : List (String × List Nat)) :
    ∀ p : Nat, runReload old entries p =
      (⟨if entries.length < p then newTable entries else old,
        (entries.take p).foldl (fun t e => tblInsert t e.1 e.2) emptyTable⟩,
        p) := by
  intro p
  induction p with
  | zero =>
    unfold runReload
    simp [Nat.iterate, newTable]
  | succ p ih =>
    unfold runReload at ih ⊢
    rw [Function.iterate_succ_apply', ih]
    simp only [reloadStep]
    by_cases hk : p < entries.length
    · rw [dif_pos hk]
      simp only [Prod.mk.injEq, ReloadState.mk.injEq, and_true]
      constructor
      · rw [if_neg (by omega), if_neg (by omega)]
      · rw [List.take_succ, List.getElem?_eq_getElem hk, List.foldl_append]
        rfl
    · rw [dif_neg hk]
      by_cases hp : p = entries.length
      · rw [if_pos hp]
        simp only [Prod.mk.injEq, ReloadState.mk.injEq, and_true]
        constructor
        · rw [if_pos (by omega)]
          subst hp
          rw [List.take_length]
          rfl
        · rw [List.take_of_length_le (by omega),
            List.take_of_length_le (by omega)]
      · rw [if_neg hp]
        simp only [Prod.mk.injEq, ReloadState.mk.injEq, and_true]
        constructor
        · rw [if_pos (by omega), if_pos (by omega)]
        · rw [List.take_of_length_le (by omega),
            List.take_of_length_le (by omega)]

/-! ## Code generation lemmas -/

theorem foldl_addRecord (records : List (String × String)) :
    ∀ init : List CgCall,
      records.foldl (fun calls r => calls ++ [CgCall.addRecord r.1 r.2])
          init =
        init ++ records.map (fun r => CgCall.addRecord r.1 r.2) := by
  induction records with
  | nil => intro init; simp
  | cons r rest ih =>
    intro init
    simp only [List.foldl_cons, List.map_cons]
    rw [ih]
    simp

/-! ## Concrete example values used by the claim witnesses -/

/-- The labels of `BLOCKED.EXAMPLE.COM`, as byte lists. -/
def nmExample : Name :=
  [[66, 76, 79, 67, 75, 69, 68], [69, 88, 65, 77, 80, 76, 69], [67, 79, 77]]

/-- A type-A class-IN query for `BLOCKED.EXAMPLE.COM`. -/
def mExample : DnsMessage :=
  { header :=
      { id := 4660, qr := false, opcode := 0, aa := false, tc := false,
        rd := true, ra := false, z := 0, rcode := 0, qdcount := 1,
        ancount := 0, nscount := 0, arcount := 0 }
    questions := [{ qname := nmExample, qtype := 1, qcls := 1 }]
    answers := [] }

/-- A type-A class-IN query for `other.example.com`. -/
def mOther : DnsMessage :=
  { header :=
      { id := 7, qr := false, opcode := 0, aa := false, tc := false,
        rd := true, ra := false, z := 0, rcode := 0, qdcount := 1,
        ancount := 0, nscount := 0, arcount := 0 }
    questions :=
      [{ qname := [[111, 116, 104, 101, 114],
           [101, 120, 97, 109, 112, 108, 101], [99, 111, 109]],
         qtype := 1, qcls := 1 }]
    answers := [] }

/-- The table holding `blocked.example.com -> 10.0.0.1`. -/
def tableEx : Table :=
  tblInsert emptyTable ("blocked.example.com") [10, 0, 0, 1]

/-- The table holding `Blocked.Example.com -> 10.0.0.1` (mixed-case key). -/
def tableCi : Table :=
  tblInsert emptyTable ("Blocked.Example.com") [10, 0, 0, 1]

/-! ## The claims -/

/-- C1 (counterexample): the `CONFIG_SCHEMA` of
`components/dns_proxy/__init__.py` runs both `domain` and `ip` through
`cv.string` only, so an entry with an empty domain and an unparseable IP
literal passes validation — the claim that every entry is validated as a
non-empty domain and well-formed IP literal, with load failing otherwise, is
false on the code. -/
theorem c1_schema_accepts_invalid_entry :
    validateRecords (CV.vlist [CV.vdict
        [("domain", CV.str ("")), ("ip", CV.str ("definitely-not-an-ip"))]]) =
      .ok [("", "definitely-not-an-ip")] ∧
    parseIPv4 ("definitely-not-an-ip") = none ∧
    ("" : String).length = 0 := by
  refine ⟨rfl, rfl, rfl⟩

/-- C1 (amended): the schema validates only shape — an entry must be a dict
with exactly the required keys `domain` and `ip`, both string-valued; any
string values pass, empty or unparseable included.  It is the (spec-modelled)
core `load` that fails with `ConfigError` exactly when a domain is empty or
an address fails to parse. -/
theorem c1_schema_shape_only (d i : String) :
    validateRecords (CV.vlist
        [CV.vdict [("domain", CV.str d), ("ip", CV.str i)]]) = .ok [(d, i)] ∧
    ((∃ t, load [(d, i)] = .ok t) ↔ (d ≠ "" ∧ parseIPv4 i ≠ none)) := by
  constructor
  · rfl
  · constructor
    · rintro ⟨t, ht⟩
      unfold load loadFrom at ht
      by_cases hd : d = ""
      · rw [if_pos hd] at ht
        exact absurd ht (by simp)
      · rcases hip : parseIPv4 i with _ | a
        · rw [if_neg hd, hip] at ht
          exact absurd ht (by simp)
        · exact ⟨hd, by simp [hip]⟩
    · rintro ⟨hd, hip⟩
      rcases hip2 : parseIPv4 i with _ | a
      · exact absurd hip2 hip
      · refine ⟨tblInsert emptyTable d a, ?_⟩
        unfold load loadFrom
        rw [if_neg hd, hip2]
        exact rfl

/-- C2: codec round trip — decoding an encoded validly-constructed message
reproduces its header fields, questions and answers exactly. -/
theorem c2_decode_encode_roundtrip (m : DnsMessage) (hv : validMsg m) :
    decode (encode m) = some m :=
  decode_encode_of_valid m hv

/-- C2 witness: the round trip at a concrete query message. -/
theorem c2_decode_encode_roundtrip_witness :
    validMsg mExample ∧ decode (encode mExample) = some mExample :=
  ⟨by decide, c2_decode_encode_roundtrip mExample (by decide)⟩

/-- C3: for every query and Answer decision, the built response copies the
query's id and Question section, sets QR=1, AA=1, RCODE=NOERROR, ancount=1,
and carries exactly one resource record whose rdata is the address stored for
the case-insensitively matched domain. -/
theorem c3_build_answer (t : Table) (m : DnsMessage) (nm : Name)
    (a : List Nat) (ttl : Nat) (h : resolve t m = .answer nm a ttl) :
    (build m nm a ttl).header.id = m.header.id ∧
    (build m nm a ttl).questions = m.questions ∧
    (build m nm a ttl).header.qr = true ∧
    (build m nm a ttl).header.aa = true ∧
    (build m nm a ttl).header.rcode = 0 ∧
    (build m nm a ttl).header.ancount = 1 ∧
    ∃ q, m.questions = [q] ∧
      lookup t (stripTrailingDot (nameToText q.qname)) = some a ∧
      (build m nm a ttl).answers =
        [{ name := q.qname, rtype := 1, rcls := 1, ttl := ttl, rdata := a }] := by
  obtain ⟨hqr, hop, q, hql, hnm, httl, hqt, hqc, hlk⟩ := resolve_answer_inv h
  exact ⟨rfl, rfl, rfl, rfl, rfl, rfl, q, hql, hlk, by subst hnm; rfl⟩

/-- C3 witness: the spec's scenario — table `blocked.example.com -> 10.0.0.1`,
query for `BLOCKED.EXAMPLE.COM` type A class IN. -/
theorem c3_build_answer_witness :
    (build mExample nmExample [10, 0, 0, 1] 60).header.id =
        mExample.header.id ∧
    (build mExample nmExample [10, 0, 0, 1] 60).questions =
        mExample.questions ∧
    (build mExample nmExample [10, 0, 0, 1] 60).header.qr = true ∧
    (build mExample nmExample [10, 0, 0, 1] 60).header.aa = true ∧
    (build mExample nmExample [10, 0, 0, 1] 60).header.rcode = 0 ∧
    (build mExample nmExample [10, 0, 0, 1] 60).header.ancount = 1 ∧
    ∃ q, mExample.questions = [q] ∧
      lookup tableEx (stripTrailingDot (nameToText q.qname)) =
        some [10, 0, 0, 1] ∧
      (build mExample nmExample [10, 0, 0, 1] 60).answers =
        [{ name := q.qname, rtype := 1, rcls := 1, ttl := 60,
           rdata := [10, 0, 0, 1] }] :=
  c3_build_answer tableEx mExample nmExample [10, 0, 0, 1] 60 (by decide)

/-- C4: drop on miss — when every queried name normalizes to a name absent
from the table, the resolver decides `noMatch` and the listener sends no
reply. -/
theorem c4_drop_on_miss (t : Table) (buf : List Nat) (m : DnsMessage)
    (hdec : decode buf = some m) (hq : m.header.qr = false)
    (hop : m.header.opcode = 0)
    (habs : ∀ q ∈ m.questions,
      lookup t (stripTrailingDot (nameToText q.qname)) = none) :
    resolve t m = .noMatch ∧ handle t buf = none := by
  have hres := resolve_noMatch_of_absent habs
  refine ⟨hres, ?_⟩
  unfold handle
  simp only [hdec, hres]

/-- C4 witness: the spec's scenario — no entry for `other.example.com`, a
query for it gets no reply. -/
theorem c4_drop_on_miss_witness :
    decode (encode mOther) = some mOther ∧
    resolve tableEx mOther = .noMatch ∧ handle tableEx (encode mOther) = none := by
  refine ⟨by rfl, c4_drop_on_miss tableEx (encode mOther) mOther (by rfl) rfl
    rfl (by decide)⟩

/-- C5: any buffer shorter than the 12-byte fixed header fails to decode,
returning the error value (`none`, modelling `MalformedPacketError`) rather
than crashing. -/
theorem c5_short_buffer_malformed (buf : List Nat) (h : buf.length < 12) :
    decode buf = none := by
  unfold decode
  rw [decodeHeader_eq_none_of_short h]

/-- C5 witness: a concrete 3-byte buffer. -/
theorem c5_short_buffer_malformed_witness :
    ([0, 1, 2] : List Nat).length < 12 ∧ decode [0, 1, 2] = none :=
  ⟨by decide, c5_short_buffer_malformed [0, 1, 2] (by decide)⟩

/-- C6: name decoding rejects any compression pointer whose 14-bit target is
at or past the pointer's own offset, at every fuel value — so the (total,
fuel-bounded) decoder never follows a forward or self pointer and cannot loop
on maliciously compressed packets. -/
theorem c6_forward_pointer_rejected (buf : List Nat) (pos fuel b b2 : Nat)
    (hb : buf[pos]? = some b) (hptr : 192 ≤ b)
    (hb2 : buf[pos + 1]? = some b2)
    (hfwd : pos ≤ (b - 192) * 256 + b2) :
    readName buf fuel pos = none := by
  cases fuel with
  | zero => rfl
  | succ f =>
    have h0 : ¬b = 0 := by omega
    have h64 : ¬b < 64 := by omega
    simp only [readName, hb]
    rw [if_neg h0, if_neg h64, if_pos hptr]
    simp only [hb2]
    rw [if_neg (by omega)]

/-- C6 witness: a pointer at offset 0 targeting offset 0. -/
theorem c6_forward_pointer_rejected_witness :
    ([192, 0] : List Nat)[0]? = some 192 ∧
    ([192, 0] : List Nat)[0 + 1]? = some 0 ∧
    readName [192, 0] (nameFuel [192, 0]) 0 = none :=
  ⟨by decide, by decide,
    c6_forward_pointer_rejected [192, 0] 0 (nameFuel [192, 0]) 192 0
      (by decide) (by decide) (by decide) (by decide)⟩

/-- C7: after a successful load, `lookup` succeeds exactly when some
configured entry's domain equals the queried name case-insensitively — no
wildcard or suffix matching ever produces a result. -/
theorem c7_lookup_exact_case_insensitive (entries : List (String × String))
    (t : Table) (name : String) (hload : load entries = .ok t) :
    (∃ a, lookup t name = some a) ↔
      ∃ e ∈ entries, lowerStr e.1 = lowerStr name := by
  have hml := loadFrom_lookup entries emptyTable t hload name
  rcases hfind : entries.reverse.find?
      (fun e => lowerStr e.1 == lowerStr name) with _ | e
  · simp only [hfind] at hml
    constructor
    · rintro ⟨a, ha⟩
      rw [hml] at ha
      exact absurd ha (by simp [lookup, emptyTable])
    · rintro ⟨e, he, heq⟩
      have := List.find?_eq_none.mp hfind e (List.mem_reverse.mpr he)
      exact absurd (by simpa using heq) this
  · simp only [hfind] at hml
    have he : e ∈ entries :=
      List.mem_reverse.mp (List.mem_of_find?_eq_some hfind)
    have hp := List.find?_some hfind
    constructor
    · rintro ⟨a, _⟩
      exact ⟨e, he, by simpa using hp⟩
    · rintro ⟨e2, _, _⟩
      have hv := loadFrom_valid entries emptyTable t hload e he
      obtain ⟨a, ha⟩ := Option.isSome_iff_exists.mp hv.2
      exact ⟨a, by rw [hml, ha]⟩

/-- C7 witness: the mixed-case key `Blocked.Example.com` is found by the
query name `BLOCKED.EXAMPLE.COM`. -/
theorem c7_lookup_exact_case_insensitive_witness :
    (∃ a, lookup tableCi ("BLOCKED.EXAMPLE.COM") = some a) ↔
      ∃ e ∈ [(("Blocked.Example.com" : String), ("10.0.0.1" : String))],
        lowerStr e.1 = lowerStr ("BLOCKED.EXAMPLE.COM") :=
  c7_lookup_exact_case_insensitive [("Blocked.Example.com", "10.0.0.1")]
    tableCi ("BLOCKED.EXAMPLE.COM") (by rfl)

/-- C8: last write wins — a configuration whose entries are individually
acceptable loads without error even when a domain occurs more than once
(case-insensitively), and looking that domain up returns the address of the
last such entry. -/
theorem c8_last_write_wins (entries : List (String × String)) (d : String)
    (e : String × String) (hv : ∀ x ∈ entries, validEntry x)
    (hdup :
      2 ≤ (entries.filter (fun x => lowerStr x.1 == lowerStr d)).length)
    (hlast :
      entries.reverse.find? (fun x => lowerStr x.1 == lowerStr d) = some e) :
    ∃ t, load entries = .ok t ∧ lookup t d = parseIPv4 e.2 ∧
      (parseIPv4 e.2).isSome = true := by
  obtain ⟨t, ht⟩ := loadFrom_ok entries emptyTable hv
  refine ⟨t, ht, ?_, ?_⟩
  · have hml := loadFrom_lookup entries emptyTable t ht d
    simp only [hlast] at hml
    exact hml
  · have he : e ∈ entries :=
      List.mem_reverse.mp (List.mem_of_find?_eq_some hlast)
    exact (loadFrom_valid entries emptyTable t ht e he).2

/-- C8 witness: two case-insensitive duplicates of `a.example`; lookup
returns the second entry's address. -/
theorem c8_last_write_wins_witness :
    ∃ t, load [("A.example", "1.2.3.4"), ("a.EXAMPLE", "5.6.7.8")] = .ok t ∧
      lookup t ("a.example") = parseIPv4 ("5.6.7.8") ∧
      (parseIPv4 ("5.6.7.8")).isSome = true :=
  c8_last_write_wins [("A.example", "1.2.3.4"), ("a.EXAMPLE", "5.6.7.8")]
    ("a.example") ("a.EXAMPLE", "5.6.7.8") (by decide) (by decide) (by decide)

/-- C9: reload atomicity — after any number of atomic steps of a reload, the
published table is the fully-old or the fully-new table (never a partially
built one), so a lookup interleaved at any point observes one of the two
consistent tables. -/
theorem c9_reload_atomic (old : Table) (entries : List (String × List Nat))
    (p : Nat) (name : String) :
    ((runReload old entries p).1.published = old ∨
      (runReload old entries p).1.published = newTable entries) ∧
    (lookup (runReload old entries p).1.published name = lookup old name ∨
      lookup (runReload old entries p).1.published name =
        lookup (newTable entries) name) := by
  have hpub : (runReload old entries p).1.published =
      if entries.length < p then newTable entries else old := by
    rw [runReload_spec]
  by_cases h : entries.length < p
  · rw [hpub, if_pos h]
    exact ⟨Or.inr rfl, Or.inr rfl⟩
  · rw [hpub, if_neg h]
    exact ⟨Or.inl rfl, Or.inl rfl⟩

/-- C10: for a validated configuration, `to_code` emits exactly one
`add_record(domain, ip)` call per record, in configuration order (duplicates
included), every such call comes after component registration, and an empty
records list emits none. -/
theorem c10_to_code_order (raw : CV) (recs : List (String × String))
    (hval : validateRecords raw = .ok recs) :
    to_code recs = [CgCall.newPvariable, CgCall.registerComponent] ++
        recs.map (fun r => CgCall.addRecord r.1 r.2) ∧
    (to_code recs).filter isAddRecord =
        recs.map (fun r => CgCall.addRecord r.1 r.2) ∧
    (recs = [] →
      to_code recs = [CgCall.newPvariable, CgCall.registerComponent]) := by
  have h1 : to_code recs =
      [CgCall.newPvariable, CgCall.registerComponent] ++
        recs.map (fun r => CgCall.addRecord r.1 r.2) := by
    unfold to_code
    rw [foldl_addRecord]
  refine ⟨h1, ?_, ?_⟩
  · rw [h1, List.filter_append]
    rw [show List.filter isAddRecord
        [CgCall.newPvariable, CgCall.registerComponent] = [] from rfl]
    rw [List.nil_append]
    apply List.filter_eq_self.mpr
    intro c hc
    obtain ⟨r, _, rfl⟩ := List.mem_map.mp hc
    rfl
  · intro h
    rw [h1, h]
    rfl

/-- C10 witness: a two-record configuration. -/
theorem c10_to_code_order_witness :
    to_code [("a", "1.1.1.1"), ("b", "2.2.2.2")] =
        [CgCall.newPvariable, CgCall.registerComponent] ++
          [("a", "1.1.1.1"), ("b", "2.2.2.2")].map
            (fun r => CgCall.addRecord r.1 r.2) ∧
    (to_code [("a", "1.1.1.1"), ("b", "2.2.2.2")]).filter isAddRecord =
        [("a", "1.1.1.1"), ("b", "2.2.2.2")].map
          (fun r => CgCall.addRecord r.1 r.2) ∧
    ([(("a" : String), ("1.1.1.1" : String)), ("b", "2.2.2.2")] = [] →
      to_code [("a", "1.1.1.1"), ("b", "2.2.2.2")] =
        [CgCall.newPvariable, CgCall.registerComponent]) :=
  c10_to_code_order
    (CV.vlist [CV.vdict [("domain", CV.str ("a")), ("ip", CV.str ("1.1.1.1"))],
      CV.vdict [("domain", CV.str ("b")), ("ip", CV.str ("2.2.2.2"))]])
    [("a", "1.1.1.1"), ("b", "2.2.2.2")] (by rfl)

end DnsProxy
